import Mathlib

/-!
Verification of `yotta/lib/pack.py` (knowledgejunkie/yotta).

The Python source is shallowly embedded: strings are processed over their
character lists, fallible operations return `Except`, and the standard
library routines the source delegates to (`fnmatch`, `pathlib.PurePath.match`,
`os.path.join`, `os.path.exists`, `os.path.splitext`, `re.match` on the fixed
readme pattern, `tarfile.add` with a filter) are modelled faithfully for the
fragment the source exercises.
-/

deriving instance DecidableEq for Except

namespace YottaPack

/-! ## Character and string helpers (ASCII semantics, as used by the source) -/

/-- ASCII lowercasing of one character, as Python lowercases the ASCII range. -/
def charLower (c : Char) : Char :=
  if 65 ≤ c.toNat && c.toNat ≤ 90 then Char.ofNat (c.toNat + 32) else c

/-- Python `s.lower()` restricted to ASCII input. -/
def strLower (s : String) : String :=
  String.mk (s.data.map charLower)

/-- Python `s.startswith(pre)`. -/
def strStartsWith (s pre : String) : Bool :=
  pre.data.isPrefixOf s.data

/-- Python `s.endswith(suf)`. -/
def strEndsWith (s suf : String) : Bool :=
  suf.data.isSuffixOf s.data

/-- Split a character list at every occurrence of the separator. -/
def splitOnChar (sep : Char) : List Char → List (List Char)
  | [] => [[]]
  | c :: cs =>
    let rest := splitOnChar sep cs
    if c == sep then
      [] :: rest
    else
      match rest with
      | [] => [[c]]
      | r :: rs => (c :: r) :: rs

/-- Value of a decimal digit character, if it is one. -/
def digitVal (c : Char) : Option Nat :=
  if 48 ≤ c.toNat && c.toNat ≤ 57 then some (c.toNat - 48) else none

/-- Python `int(s)` on non-negative decimal input: all characters must be
digits and there must be at least one. -/
def parseDecimal (cs : List Char) : Option Nat :=
  match cs with
  | [] => none
  | _ =>
    cs.foldl (fun acc c =>
      match acc, digitVal c with
      | some n, some d => some (n * 10 + d)
      | _, _ => none) (some 0)

/-! ## fnmatch (Python `fnmatch.fnmatchcase`)

`pathlib.PurePath.match` compares each path component against the
corresponding pattern component with `fnmatch`: `*` matches any run of
characters, `?` matches one character, `[seq]` and `[!seq]` are character
classes with ranges, an unterminated `[` is a literal bracket, and a `]`
appearing first inside a class is a literal member. The matcher below uses
explicit fuel; every recursive call strictly decreases the combined length
of pattern and subject, so the initial fuel of `pattern + subject + 1` can
never run out. -/

/-- Scan a character-class body up to the closing bracket; returns the raw
class members and the remaining pattern, or `none` when unterminated. -/
def scanClass : List Char → Option (List Char × List Char)
  | [] => none
  | ']' :: rest => some ([], rest)
  | c :: rest =>
    match scanClass rest with
    | some (cls, rem) => some (c :: cls, rem)
    | none => none

/-- Parse a class body that follows an opening bracket: an optional leading
`!` negates, and a `]` directly after that is a literal member. -/
def parseClass (ps : List Char) : Option (Bool × List Char × List Char) :=
  let (neg, body) :=
    match ps with
    | '!' :: rest => (true, rest)
    | _ => (false, ps)
  match body with
  | ']' :: rest =>
    match scanClass rest with
    | some (cls, rem) => some (neg, ']' :: cls, rem)
    | none => none
  | _ =>
    match scanClass body with
    | some (cls, rem) => some (neg, cls, rem)
    | none => none

/-- Membership in a character class: `a-b` is a range when a character
follows the dash, otherwise members are literal. -/
def classMember : List Char → Char → Bool
  | a :: '-' :: b :: rest, c =>
    (decide (a.toNat ≤ c.toNat) && decide (c.toNat ≤ b.toNat)) || classMember rest c
  | a :: rest, c => a == c || classMember rest c
  | [], _ => false

/-- Fuel-driven glob matcher: `fnmatchFuel fuel pattern subject`. -/
def fnmatchFuel : Nat → List Char → List Char → Bool
  | 0, _, _ => false
  | _ + 1, [], [] => true
  | _ + 1, [], _ :: _ => false
  | fuel + 1, '*' :: ps, [] => fnmatchFuel fuel ps []
  | fuel + 1, '*' :: ps, c :: cs =>
    fnmatchFuel fuel ps (c :: cs) || fnmatchFuel fuel ('*' :: ps) cs
  | fuel + 1, '?' :: ps, _ :: cs => fnmatchFuel fuel ps cs
  | _ + 1, '?' :: _, [] => false
  | fuel + 1, '[' :: ps, cs =>
    match parseClass ps with
    | some (neg, cls, rem) =>
      match cs with
      | [] => false
      | c :: cs2 => (classMember cls c != neg) && fnmatchFuel fuel rem cs2
    | none =>
      match cs with
      | '[' :: cs2 => fnmatchFuel fuel ps cs2
      | _ => false
  | fuel + 1, p :: ps, c :: cs => p == c && fnmatchFuel fuel ps cs
  | _ + 1, _ :: _, [] => false

/-- Python `fnmatch.fnmatchcase(name, pattern)`. -/
def fnmatchCase (name pattern : List Char) : Bool :=
  fnmatchFuel (pattern.length + name.length + 1) pattern name

/-! ## pathlib.PurePath.match (POSIX flavour) -/

/-- Errors the Python standard library raises inside `PurePath.match`:
`typeError` when the pattern is not a string (for example a compiled
regular-expression object), `valueError` for the empty pattern. -/
inductive MatchError where
  | typeError
  | valueError
deriving DecidableEq

/-- POSIX path components: split on `/`, dropping empty components and
single-dot components, as `PurePath` parsing does. -/
def pathParts (s : String) : List (List Char) :=
  (splitOnChar '/' s.data).filter (fun c => !(c == []) && !(c == ['.']))

/-- Does the textual path begin with a slash. -/
def isAbsPath (s : String) : Bool :=
  match s.data with
  | '/' :: _ => true
  | _ => false

/-- Componentwise fnmatch of equally long part lists. -/
def partsMatch : List (List Char) → List (List Char) → Bool
  | [], [] => true
  | p :: ps, q :: qs => fnmatchCase p q && partsMatch ps qs
  | _, _ => false

/-- `PurePath(path).match(pattern)` for a string pattern: an empty pattern
raises `ValueError`; a relative pattern matches the trailing components of
the path; an absolute pattern must cover the whole of an absolute path. -/
def purePathMatch (path pattern : String) : Except MatchError Bool :=
  let patParts := pathParts pattern
  if patParts.isEmpty then
    .error .valueError
  else
    let pp := pathParts path
    if isAbsPath pattern then
      .ok (isAbsPath path && decide (pp.length = patParts.length) && partsMatch pp patParts)
    else
      .ok (decide (patParts.length ≤ pp.length)
        && partsMatch (pp.drop (pp.length - patParts.length)) patParts)

/-! ## Ignore patterns

`Pack.__init__` seeds `self.ignore_patterns` with
`[re.compile('|'.join(Default_Publish_Ignore))]` — a single *compiled
regular-expression object* — and appends the raw override lines read from
`.yotta_ignore` as plain strings. `Pack.ignores` then passes every element
to `PurePath.match`, which accepts only string patterns: handing it the
compiled regex object raises `TypeError`. The embedding keeps both kinds of
element apart so that this behaviour is preserved. -/

/-- One element of `self.ignore_patterns`: either the compiled
regular-expression object built from the built-in list, or a plain pattern
string taken from the override file. -/
inductive IgnorePattern where
  | regexObj (source : List String)
  | globStr (s : String)
deriving DecidableEq

/-- `Default_Publish_Ignore` from the source, verbatim. -/
def Default_Publish_Ignore : List String := [
  "upload.tar.[gb]z",
  ".git",
  ".hg",
  ".svn",
  "yotta_modules",
  "yotta_targets",
  "build",
  ".DS_Store",
  ".sw[ponml]",
  "._.*",
  "~",
  ".DS_Store",
  "._.*"
]

/-- `test_path.match(exp)` for one element of `ignore_patterns`:
a compiled regular-expression object is not a string, so `PurePath.match`
raises `TypeError`; a plain string is glob-matched. -/
def matchIgnorePattern (path : String) : IgnorePattern → Except MatchError Bool
  | .regexObj _ => .error .typeError
  | .globStr s => purePathMatch path s

/-! ## Version values

Modelled from the spec: semantic version parsing and comparison live in the
external `version` module (out of scope, consumed as an opaque ordered value
type with a canonical string form); only the major.minor.patch fragment the
claims exercise is modelled here. -/

/-- Modelled from the spec: an opaque ordered semantic-version value. -/
structure Version where
  major : Nat
  minor : Nat
  patch : Nat
deriving DecidableEq

/-- Modelled from the spec: strict ordering of semantic versions
(lexicographic on major, minor, patch). -/
def Version.lt (a b : Version) : Bool :=
  decide (a.major < b.major) ||
  (a.major == b.major &&
    (decide (a.minor < b.minor) ||
      (a.minor == b.minor && decide (a.patch < b.patch))))

/-- Modelled from the spec: `str(v)`, the canonical string form. -/
def Version.str (v : Version) : String :=
  toString v.major ++ "." ++ toString v.minor ++ "." ++ toString v.patch

/-- Failure captured by the construction-time `try` block of
`Pack.__init__`: missing manifest file, malformed JSON, missing key, or an
unparseable version string. -/
inductive LoadError where
  | fileMissing
  | jsonMalformed
  | keyMissing (k : String)
  | versionMalformed
deriving DecidableEq

/-- Modelled from the spec: `version.Version(s)` parses a canonical
major.minor.patch string and fails on anything else. -/
def parseVersion (s : String) : Except LoadError Version :=
  match splitOnChar '.' s.data with
  | [a, b, c] =>
    match parseDecimal a, parseDecimal b, parseDecimal c with
    | some x, some y, some z => .ok ⟨x, y, z⟩
    | _, _, _ => .error .versionMalformed
  | _ => .error .versionMalformed

/-! ## Ordered manifest dictionaries

`ordered_json.load` yields an `OrderedDict`; the claims only touch the
string-valued entries `name` and `version`, so the manifest is embedded as
an insertion-ordered association list with string values. -/

/-- Python dict lookup `d[k]`, as an optional value. -/
def odLookup : List (String × String) → String → Option String
  | [], _ => none
  | (k0, v0) :: rest, k => if k0 = k then some v0 else odLookup rest k

/-- Python dict assignment `d[k] = v`: update in place when the key exists
(keeping its position), otherwise append. -/
def odInsert : List (String × String) → String → String → List (String × String)
  | [], k, v => [(k, v)]
  | (k0, v0) :: rest, k, v =>
    if k0 = k then (k, v) :: rest else (k0, v0) :: odInsert rest k v

/-! ## The Pack entity -/

/-- The state of a `Pack` object after `__init__` (the VCS handle, an
external capability unused by the claims, is not carried). -/
structure Pack where
  path : String
  installed_linked : Bool
  error : Option LoadError
  latest_suitable_version : Option Version
  version : Option Version
  description_filename : String
  ignore_list_fname : String
  ignore_patterns : List IgnorePattern
  description : List (String × String)
deriving DecidableEq

/-- Result of reading and JSON-parsing the manifest file, as supplied by
the filesystem: missing, unparseable, or a parsed ordered dictionary. -/
inductive ManifestRead where
  | missing
  | malformed
  | ok (d : List (String × String))

/-- Result of opening and reading `.yotta_ignore`: missing file (`ENOENT`),
some other read failure, or its lines. -/
inductive IgnoreRead where
  | missing
  | readFailure
  | ok (lines : List String)
deriving DecidableEq

/-- The only exception `Pack.__init__` lets escape: a non-`ENOENT` failure
while reading the ignore-override file is re-raised. -/
inductive InitFailure where
  | ignoreFileReadFailure
deriving DecidableEq

/-- The body of the first `try` block of `Pack.__init__`:
`ordered_json.load` followed by `version.Version(description['version'])`.
Any failure is the exception the `except` clause captures. -/
def loadDescription : ManifestRead → Except LoadError (List (String × String) × Version)
  | .missing => .error .fileMissing
  | .malformed => .error .jsonMalformed
  | .ok d =>
    match odLookup d "version" with
    | none => .error (.keyMissing "version")
    | some s =>
      match parseVersion s with
      | .error e => .error e
      | .ok v => .ok (d, v)

/-- Python `l.rstrip` over the two newline characters, the per-line
stripping performed by `_parseIgnoreFile`. -/
def rstripNewlines (l : String) : String :=
  String.mk ((l.data.reverse.dropWhile (fun c => c == '\n' || c == '\r')).reverse)

/-- Python `l.startswith(chr(35))`: does the line begin with a hash. -/
def startsWithHash (l : String) : Bool :=
  match l.data with
  | '#' :: _ => true
  | _ => false

/-- `Pack._parseIgnoreFile`: strip trailing newline characters from each
line and keep every line that does not then begin with a hash. -/
def parseIgnoreFile : List String → List String
  | [] => []
  | l :: ls =>
    let l2 := rstripNewlines l
    if startsWithHash l2 then
      parseIgnoreFile ls
    else
      l2 :: parseIgnoreFile ls

/-- `Pack.__init__`: record the constructor arguments, load the manifest
inside a `try` that converts every failure into recorded state, then read
the ignore-override file — `ENOENT` is ignored, any other read failure is
re-raised (the only way construction can fail). -/
def packInit (path description_filename : String) (installed_linked : Bool)
    (latest_suitable_version : Option Version)
    (mread : ManifestRead) (iread : IgnoreRead) : Except InitFailure Pack :=
  let base : Pack := {
    path := path
    installed_linked := installed_linked
    error := none
    latest_suitable_version := latest_suitable_version
    version := none
    description_filename := description_filename
    ignore_list_fname := ".yotta_ignore"
    ignore_patterns := [.regexObj Default_Publish_Ignore]
    description := []
  }
  let loaded : Pack :=
    match loadDescription mread with
    | .ok (d, v) => { base with description := d, version := some v }
    | .error e => { base with description := [], error := some e }
  match iread with
  | .readFailure => .error .ignoreFileReadFailure
  | .missing => .ok loaded
  | .ok lines =>
    .ok { loaded with
      ignore_patterns :=
        loaded.ignore_patterns ++ (parseIgnoreFile lines).map IgnorePattern.globStr }

/-! ## Pack queries and mutators -/

/-- `Pack.getError`. -/
def Pack.getError (p : Pack) : Option LoadError := p.error

/-- `Pack.getDescriptionFile`: `os.path.join(self.path, self.description_filename)`. -/
def osPathJoin (a b : String) : String :=
  if isAbsPath b then b
  else if a = "" || (match a.data.reverse with | '/' :: _ => true | _ => false) then a ++ b
  else a ++ "/" ++ b

/-- `Pack.getDescriptionFile`. -/
def Pack.getDescriptionFile (p : Pack) : String :=
  osPathJoin p.path p.description_filename

/-- `os.path.exists` against an explicit filesystem (the list of absolute
paths that exist) and current working directory: a relative argument is
resolved against the working directory. -/
def osPathExists (files : List String) (cwd arg : String) : Bool :=
  files.contains (if isAbsPath arg then arg else osPathJoin cwd arg)

/-- `Pack.exists`: `os.path.exists(self.description_filename)` — note the
bare filename, not joined with `self.path` (`exists` is a Lean keyword, so
the query is named `existsQuery` here). -/
def Pack.existsQuery (p : Pack) (files : List String) (cwd : String) : Bool :=
  osPathExists files cwd p.description_filename

/-- `Pack.getVersion`. -/
def Pack.getVersion (p : Pack) : Option Version := p.version

/-- `Pack.getName`: `self.description['name']` when the manifest is
non-empty, `None` otherwise. -/
def Pack.getName (p : Pack) : Option String :=
  if p.description.isEmpty then none else odLookup p.description "name"

/-- `Pack.setLatestAvailable`. -/
def Pack.setLatestAvailable (p : Pack) (v : Version) : Pack :=
  { p with latest_suitable_version := some v }

/-- Python 2 comparison `latest > self.version`: every `Version` object
compares greater than `None`. -/
def versionGtOpt (l : Version) (v : Option Version) : Bool :=
  match v with
  | none => true
  | some w => Version.lt w l

/-- `Pack.outdated`: the candidate version when one is set and compares
strictly greater than the current version, else `None`. -/
def Pack.outdated (p : Pack) : Option Version :=
  match p.latest_suitable_version with
  | some l => if versionGtOpt l p.version then some l else none
  | none => none

/-- `Pack.ignores` iteration over `self.ignore_patterns`, propagating the
exception a non-string pattern raises and stopping at the first match. -/
def ignoresGo (path : String) : List IgnorePattern → Except MatchError Bool
  | [] => .ok false
  | pat :: rest =>
    match matchIgnorePattern path pat with
    | .error e => .error e
    | .ok true => .ok true
    | .ok false => ignoresGo path rest

/-- `Pack.ignores`. -/
def Pack.ignores (p : Pack) (path : String) : Except MatchError Bool :=
  ignoresGo path p.ignore_patterns

/-- `Pack.setVersion`: store the version object and write its string form
back into the manifest. -/
def Pack.setVersion (p : Pack) (v : Version) : Pack :=
  { p with version := some v, description := odInsert p.description "version" v.str }

/-- `Pack.setName`. -/
def Pack.setName (p : Pack) (n : String) : Pack :=
  { p with description := odInsert p.description "name" n }

/-- `Pack.__nonzero__`: `bool(self.description)`. -/
def Pack.nonzero (p : Pack) : Bool :=
  !p.description.isEmpty

/-! ## Archive generation (`Pack.generateTarball`)

`tarfile.TarFile.add(path, arcname, filter)` walks the source directory
recursively: for each entry it builds a tar member named
`arcname/<relative path>`, applies the filter, omits the entry (and, for a
directory, the whole subtree) when the filter returns `None`, and otherwise
appends the member and recurses. The directory tree is embedded as a rose
tree; the walk uses explicit fuel that strictly exceeds the tree depth, so
the zero-fuel branch is unreachable. -/

/-- A directory entry of the package tree. -/
inductive FSTree where
  | file (name : String)
  | dir (name : String) (children : List FSTree)

/-- Name of a tree node. -/
def fsName : FSTree → String
  | .file n => n
  | .dir n _ => n

mutual
/-- Constructor count of a tree, an upper bound for its depth. -/
def treeSize : FSTree → Nat
  | .file _ => 1
  | .dir _ children => 1 + forestSize children
/-- Constructor count of a forest. -/
def forestSize : List FSTree → Nat
  | [] => 0
  | t :: ts => treeSize t + forestSize ts
end

/-- Python `str(x)` applied to an optional value, as the `%` formatting in
`generateTarball` does: `None` prints as the four-letter word. -/
def pyStrOpt (s : Option String) : String :=
  match s with
  | some v => v
  | none => "None"

/-- The `filterArchive` closure inside `generateTarball`: strip the
`archive_name/` prefix when present, test the result with `self.ignores`,
and keep the entry exactly when it is not ignored. The exception `ignores`
raises propagates out of the filter. -/
def filterArchive (p : Pack) (archiveName : String) (tarName : String) : Except MatchError Bool :=
  let unprefixedName :=
    if strStartsWith tarName archiveName then
      String.mk (tarName.data.drop (archiveName.length + 1))
    else
      tarName
  match p.ignores unprefixedName with
  | .error e => .error e
  | .ok b => .ok (!b)

/-- The recursive walk of `tarfile.add` under the filter: returns the names
of the tar members added, in walk order. -/
def tarAdd (p : Pack) (archiveName : String) : Nat → FSTree → String → Except MatchError (List String)
  | 0, _, _ => .ok []
  | fuel + 1, t, arc =>
    match filterArchive p archiveName arc with
    | .error e => .error e
    | .ok false => .ok []
    | .ok true =>
      match t with
      | .file _ => .ok [arc]
      | .dir _ children =>
        match children.foldl
          (fun acc c =>
            match acc with
            | .error e => .error e
            | .ok names =>
              match tarAdd p archiveName fuel c (arc ++ "/" ++ fsName c) with
              | .error e => .error e
              | .ok more => .ok (names ++ more))
          (Except.ok []) with
        | .error e => .error e
        | .ok names => .ok (arc :: names)

/-- `Pack.generateTarball`: archive the package tree under the root entry
`<name>-<version>` (formatted with Python `%s`, so an unset name or version
prints as `None`), filtering every entry through `filterArchive`. -/
def generateTarball (p : Pack) (tree : FSTree) : Except MatchError (List String) :=
  let archiveName :=
    pyStrOpt p.getName ++ "-" ++ pyStrOpt (p.getVersion.map Version.str)
  tarAdd p archiveName (treeSize tree) tree archiveName

/-! ## Readme location (`Pack.findAndOpenReadme`) -/

/-- `Readme_Regex.match(x)` for `re.compile(chr(94) ++ "readme(?:\\.md)", re.IGNORECASE)`:
`re.match` anchors at the start only and the group has no quantifier, so
the test is a case-insensitive prefix test for `readme.md`. -/
def readmeRegexMatch (x : String) : Bool :=
  strStartsWith (strLower x) "readme.md"

/-- The `OptionalFileWrapper` scope object: a filename and open mode when
backed by a real file, or the absent marker. -/
structure OptionalFileWrapper where
  fname : Option String
  mode : Option String
deriving DecidableEq

/-- `OptionalFileWrapper.contents` for a wrapper whose backing content is
known: the absent marker always reads as the empty string. -/
def OptionalFileWrapper.contentsOf (w : OptionalFileWrapper) (fileContent : String) : String :=
  match w.fname with
  | some _ => fileContent
  | none => ""

/-- `os.path.splitext(name)[1]`: the extension from the last dot, except
that dots leading the base name do not start an extension. -/
def splitextExt (name : String) : String :=
  let cs := name.data
  let lead := cs.takeWhile (fun c => c == '.')
  let rest := cs.drop lead.length
  let tailAfterLastDot := rest.reverse.takeWhile (fun c => !(c == '.'))
  if tailAfterLastDot.length == rest.length then
    ""
  else
    String.mk ('.' :: tailAfterLastDot.reverse)

/-- `OptionalFileWrapper.extension`: empty for the absent marker. -/
def OptionalFileWrapper.extension (w : OptionalFileWrapper) : String :=
  match w.fname with
  | some f => splitextExt f
  | none => ""

/-- `Pack.findAndOpenReadme` over an explicit directory listing: filter the
listing through `Readme_Regex`, return the first candidate whose name ends
in `.md` (a case-sensitive `str.endswith` test) opened for reading, else
the first candidate, else the absent wrapper. -/
def findAndOpenReadme (files : List String) : OptionalFileWrapper :=
  let readme_files := files.filter readmeRegexMatch
  match readme_files.find? (fun f => strEndsWith f ".md") with
  | some f => { fname := some f, mode := some "r" }
  | none =>
    match readme_files with
    | f0 :: _ => { fname := some f0, mode := some "r" }
    | [] => { fname := none, mode := none }

/-! ## The publish pipeline (`Pack.publish`) -/

/-- How a publish invocation ends: the exclusive create of the staging file
fails with `EEXIST`, the archive walk raises, or the registry capability is
invoked and its result returned. -/
inductive PublishOutcome where
  | stagingCollision
  | archiveFailure (e : MatchError)
  | registryReturn (r : Option String)
deriving DecidableEq

/-- Observable result of a publish invocation: its outcome together with
whether the registry capability was ever invoked. -/
structure PublishResult where
  outcome : PublishOutcome
  registryCalled : Bool
deriving DecidableEq

/-- `Pack.publish`: force-remove any stale `upload.tar.gz` (`fsutils.rmF`,
for which a missing file is not an error), recreate it with
`os.O_CREAT | os.O_EXCL` — modelling a concurrent stager that wins the race
between removal and creation by the flag `raceRecreatesStaging` — then
build the archive into it and hand the streams to the registry capability,
whose verbatim result is returned. An `EEXIST` from the exclusive create
propagates before any archive or registry work happens. -/
def Pack.publish (p : Pack) (tree : FSTree) (dirFiles : List String)
    (raceRecreatesStaging : Bool) (registryResult : Option String) : PublishResult :=
  let afterRm := dirFiles.filter (fun f => !(f == "upload.tar.gz"))
  let atOpen := if raceRecreatesStaging then "upload.tar.gz" :: afterRm else afterRm
  if atOpen.contains "upload.tar.gz" then
    { outcome := .stagingCollision, registryCalled := false }
  else
    match generateTarball p tree with
    | .error e => { outcome := .archiveFailure e, registryCalled := false }
    | .ok _ => { outcome := .registryReturn registryResult, registryCalled := true }

/-! ## The ignore semantics the specification prescribes -/

/-- Modelled from the spec: section 4.1 prescribes uniform glob-style
matching for every rule — the built-in group and the override lines alike —
with a path excluded when any rule matches it; the combined-regex object of
the source is identified in section 9 as a defect this corrects. -/
def ignoresUniform (rules : List String) (path : String) : Bool :=
  rules.any (fun r =>
    match purePathMatch path r with
    | .ok b => b
    | .error _ => false)

/-! ## Concrete fixtures used by witnesses and counterexamples -/

/-- The directory tree of the archive example of claim C4: `build/a.o`,
`build/sub/b.o` and `src/main.c` inside the package directory. -/
def c4tree : FSTree :=
  .dir "p" [.dir "build" [.file "a.o", .dir "sub" [.file "b.o"]], .dir "src" [.file "main.c"]]

/-- A fully constructed valid pack used to instantiate hypotheses. -/
def samplePack : Pack := {
  path := "/pkg"
  installed_linked := false
  error := none
  latest_suitable_version := some ⟨2, 0, 0⟩
  version := some ⟨1, 0, 0⟩
  description_filename := "module.json"
  ignore_list_fname := ".yotta_ignore"
  ignore_patterns := [.regexObj Default_Publish_Ignore]
  description := [("name", "n"), ("version", "1.0.0")]
}

/-- The filesystem of claim C10: only the manifest inside the package
directory exists. -/
def c10files : List String := ["/pkg/module.json"]

/-! ## Supporting lemmas -/

/-- Inserting a key and looking it up yields the inserted value. -/
theorem odLookup_odInsert_self (d : List (String × String)) (k v : String) :
    odLookup (odInsert d k v) k = some v := by
  induction d with
  | nil => simp [odInsert, odLookup]
  | cons hd tl ih =>
    obtain ⟨k0, v0⟩ := hd
    by_cases h : k0 = k <;> simp [odInsert, odLookup, h, ih]

/-- A successful lookup forces the dictionary to be non-empty. -/
theorem odLookup_ne_nil {d : List (String × String)} {k s : String}
    (h : odLookup d k = some s) : d ≠ [] := by
  intro hd
  subst hd
  simp [odLookup] at h

/-- A readme candidate that ends in `.md` (case-sensitively) has the
extension `.md` under `os.path.splitext`. -/
theorem splitextExt_of_md (f : String) (hr : readmeRegexMatch f = true)
    (he : strEndsWith f ".md" = true) : splitextExt f = ".md" := by
  have hsuf : ['.', 'm', 'd'] <:+ f.data := by
    have h1 : (".md".data).isSuffixOf f.data = true := he
    rw [List.isSuffixOf_iff_suffix] at h1
    exact h1
  obtain ⟨pre, hpre⟩ := hsuf
  have hpref : "readme.md".data <+: (strLower f).data := by
    have h1 : ("readme.md".data).isPrefixOf (strLower f).data = true := hr
    rwa [List.isPrefixOf_iff_prefix] at h1
  have hhead : ∃ c cs, f.data = c :: cs ∧ charLower c = 'r' := by
    cases hf : f.data with
    | nil =>
      exfalso
      obtain ⟨rest, hres⟩ := hpref
      simp [strLower, hf] at hres
    | cons c cs =>
      refine ⟨c, cs, rfl, ?_⟩
      obtain ⟨rest, hres⟩ := hpref
      simp [strLower, hf] at hres
      exact hres.1.symm
  obtain ⟨c, cs, hf, hcr⟩ := hhead
  have hcne : (c == '.') = false := by
    rw [beq_eq_false_iff_ne]
    intro h
    subst h
    simp [charLower] at hcr
  have hcons : c :: cs = pre ++ ['.', 'm', 'd'] := hf ▸ hpre.symm
  simp only [splitextExt, hf]
  rw [List.takeWhile_cons_of_neg (by simp [hcne])]
  simp only [List.length_nil, List.drop_zero]
  rw [hcons, List.reverse_append]
  rw [show (['.', 'm', 'd'] : List Char).reverse ++ pre.reverse
        = 'd' :: 'm' :: '.' :: pre.reverse by simp]
  rw [List.takeWhile_cons_of_pos (by decide), List.takeWhile_cons_of_pos (by decide),
      List.takeWhile_cons_of_neg (by decide)]
  have hlen : ((['d', 'm'] : List Char).length == (pre ++ ['.', 'm', 'd']).length) = false := by
    simp
  rw [hlen]
  simp

/-- Filtering away every occurrence of a string leaves a list that does not
contain it. -/
theorem filter_ne_contains_false (a : String) (l : List String) :
    (l.filter (fun f => !(f == a))).contains a = false := by
  induction l with
  | nil => rfl
  | cons hd tl ih =>
    by_cases h : hd = a
    · subst h
      simp [List.filter_cons, ih]
    · have hb : (hd == a) = false := by simp [h]
      have hb2 : (a == hd) = false := by simp [Ne.symm h]
      simp [List.filter_cons, hb, List.contains_cons, hb2, ih]
      exact fun he => h he.symm

/-! ## Claim theorems -/

/-- Claim C1: the specification says `ignores(p)` returns true exactly when
the relative path `p` glob-matches some rule of the combined built-in plus
override rule set, uniformly for both rule groups. The code instead seeds
`ignore_patterns` with a compiled regular-expression object, which
`PurePath.match` rejects with `TypeError`, so `ignores` raises on every
query instead of returning a boolean; under the uniform glob semantics the
specification prescribes, the override rule `*.secret` does match
`keys.secret`, and `src/main.c` matches no rule. -/
theorem C1_ignores_raises_typeerror_instead_of_glob :
    ((packInit "/p" "module.json" false none
        (.ok [("name", "n"), ("version", "1.0.0")]) (.ok ["*.secret"])).map
      (fun p => p.ignores "keys.secret") = .ok (.error .typeError)) ∧
    ignoresUniform (Default_Publish_Ignore ++ ["*.secret"]) "keys.secret" = true ∧
    ignoresUniform Default_Publish_Ignore "src/main.c" = false :=
  ⟨rfl, rfl, rfl⟩

/-- Claim C2: the specification says the readme locator treats as
candidates exactly the names that case-insensitively equal `readme`
optionally followed by `.md`, and that a listing holding only extensionless
`Readme` and `README` yields the first of them. The compiled pattern
`readme(?:\.md)` has no quantifier on the group, so `re.match` demands the
`.md` part (and, being unanchored at the end, accepts longer names such as
`readme.md.txt`): with only `Readme` and `README` present the candidate
list is empty and the locator returns the absent wrapper. -/
theorem C2_readme_regex_requires_md_suffix :
    findAndOpenReadme ["Readme", "README"] = { fname := none, mode := none } ∧
    readmeRegexMatch "Readme" = false ∧
    readmeRegexMatch "README" = false ∧
    readmeRegexMatch "readme.md.txt" = true :=
  ⟨rfl, rfl, rfl, rfl⟩

/-- Claim C3 counterexample: with the listing `readme.MD`, `README.md` the
claim picks `readme.MD` — the first entry whose name ends in `.md`
case-insensitively — but the code tests `endswith` case-sensitively and
returns `README.md` instead. -/
theorem C3_case_insensitive_selection_fails :
    strEndsWith (strLower "readme.MD") ".md" = true ∧
    findAndOpenReadme ["readme.MD", "README.md"]
      = { fname := some "README.md", mode := some "r" } ∧
    (findAndOpenReadme ["readme.MD", "README.md"]).fname ≠ some "readme.MD" :=
  ⟨rfl, rfl, by decide⟩

/-- Claim C3 as amended: for every directory listing, if any candidate
entry ends in `.md` compared case-SENSITIVELY, the locator returns the
first such candidate in listing order, opened for reading, and its
extension is `.md`. -/
theorem C3_first_case_sensitive_md_candidate_returned (files : List String) (f : String)
    (h : (files.filter readmeRegexMatch).find? (fun g => strEndsWith g ".md") = some f) :
    findAndOpenReadme files = { fname := some f, mode := some "r" } ∧
    OptionalFileWrapper.extension { fname := some f, mode := some "r" } = ".md" := by
  have hmd := List.find?_some h
  have hmem : f ∈ files.filter readmeRegexMatch := List.mem_of_find?_eq_some h
  have hcand : readmeRegexMatch f = true := (List.mem_filter.mp hmem).2
  constructor
  · simp only [findAndOpenReadme]
    rw [h]
  · simp only [OptionalFileWrapper.extension]
    exact splitextExt_of_md f hcand hmd

/-- Claim C3 witness: on the listing `readme.txt`, `README.md`,
`readme.md`, the first case-sensitive `.md` candidate is `README.md` and
the locator returns it. -/
theorem C3_first_case_sensitive_md_candidate_returned_witness :
    ((["readme.txt", "README.md", "readme.md"].filter readmeRegexMatch).find?
        (fun g => strEndsWith g ".md") = some "README.md") ∧
    (findAndOpenReadme ["readme.txt", "README.md", "readme.md"]
        = { fname := some "README.md", mode := some "r" } ∧
      OptionalFileWrapper.extension { fname := some "README.md", mode := some "r" } = ".md") :=
  ⟨rfl, C3_first_case_sensitive_md_candidate_returned
    ["readme.txt", "README.md", "readme.md"] "README.md" rfl⟩

/-- Claim C4: the specification says the generated archive drops every
ignored path with its descendants and keeps everything else under the
`<name>-<version>` root. The walk filter calls `self.ignores`, which
raises `TypeError` at its first pattern (the compiled regular-expression
object), so on the example tree — `build/a.o`, `build/sub/b.o`,
`src/main.c` — archive generation raises at the very first entry and
produces no archive at all instead of the claimed member list. -/
theorem C4_archive_walk_raises_typeerror :
    (packInit "/p" "module.json" false none
        (.ok [("name", "n"), ("version", "1.0.0")]) .missing).map
      (fun p => generateTarball p c4tree) = .ok (.error .typeError) :=
  rfl

/-- Claim C5: when the exclusive create of `upload.tar.gz` fails because a
concurrent stager recreated it after the forced removal, publish ends with
the staging-collision outcome and the registry capability is never
invoked; without the race the collision cannot happen, and a pre-existing
staging file is forcibly removed on entry (its absence changes nothing). -/
theorem C5_staging_collision_aborts_publish (p : Pack) (tree : FSTree)
    (dirFiles : List String) (r : Option String) :
    (Pack.publish p tree dirFiles true r
      = { outcome := .stagingCollision, registryCalled := false }) ∧
    ((Pack.publish p tree dirFiles false r).outcome ≠ .stagingCollision) ∧
    (Pack.publish p tree ("upload.tar.gz" :: dirFiles) false r
      = Pack.publish p tree dirFiles false r) := by
  refine ⟨?_, ?_, ?_⟩
  · simp [Pack.publish]
  · simp only [Pack.publish, if_false]
    rw [if_neg (by simp [filter_ne_contains_false])]
    cases hgt : generateTarball p tree <;> simp [hgt]
  · simp [Pack.publish, List.filter_cons]

/-- Claim C6: construction never fails on a manifest problem — a missing
file, malformed content, a missing version key or an unparseable version
leave the error retrievable through `getError`, the manifest empty and the
version unset, the artifact keeps exposing its path, and it is truthy
exactly when the manifest loaded successfully. -/
theorem C6_construction_never_fails_on_manifest_errors (path fn : String) (lk : Bool)
    (lat : Option Version) (m : ManifestRead) (ig : IgnoreRead)
    (hig : ig ≠ IgnoreRead.readFailure) :
    ∃ p, packInit path fn lk lat m ig = .ok p ∧ p.path = path ∧
      (∀ e, loadDescription m = .error e →
        p.getError = some e ∧ p.description = [] ∧ p.version = none) ∧
      (p.nonzero = true ↔ ∃ dv, loadDescription m = .ok dv) := by
  have hne : ∀ d v, loadDescription m = .ok (d, v) → d ≠ [] := by
    intro d v h
    cases m with
    | missing => simp [loadDescription] at h
    | malformed => simp [loadDescription] at h
    | ok d0 =>
      simp only [loadDescription] at h
      cases hl : odLookup d0 "version" with
      | none => simp only [hl] at h; cases h
      | some s =>
        simp only [hl] at h
        cases hv : parseVersion s with
        | error e => simp only [hv] at h; cases h
        | ok v0 =>
          simp only [hv] at h
          injection h with h2
          injection h2 with h3 h4
          subst h3
          exact odLookup_ne_nil hl
  cases ig with
  | readFailure => exact absurd rfl hig
  | missing =>
    refine ⟨_, rfl, ?_, ?_, ?_⟩
    · cases hm : loadDescription m with
      | ok dv => obtain ⟨d, v⟩ := dv; simp [packInit, hm]
      | error e => simp [packInit, hm]
    · intro e he
      simp [packInit, he, Pack.getError]
    · cases hm : loadDescription m with
      | ok dv =>
        obtain ⟨d, v⟩ := dv
        have hd := hne d v hm
        simp [packInit, hm, Pack.nonzero]
        cases d with
        | nil => exact absurd rfl hd
        | cons x xs => simp
      | error e =>
        simp [packInit, hm, Pack.nonzero]
  | ok lines =>
    refine ⟨_, rfl, ?_, ?_, ?_⟩
    · cases hm : loadDescription m with
      | ok dv => obtain ⟨d, v⟩ := dv; simp [packInit, hm]
      | error e => simp [packInit, hm]
    · intro e he
      simp [packInit, he, Pack.getError]
    · cases hm : loadDescription m with
      | ok dv =>
        obtain ⟨d, v⟩ := dv
        have hd := hne d v hm
        simp [packInit, hm, Pack.nonzero]
        cases d with
        | nil => exact absurd rfl hd
        | cons x xs => simp
      | error e =>
        simp [packInit, hm, Pack.nonzero]

/-- Claim C6 witness: constructing from a malformed manifest with no
override file succeeds as a value, captures the error and is falsy. -/
theorem C6_construction_never_fails_on_manifest_errors_witness :
    ∃ p, packInit "/pkg" "module.json" false none .malformed .missing = .ok p ∧
      p.path = "/pkg" ∧
      (∀ e, loadDescription .malformed = .error e →
        p.getError = some e ∧ p.description = [] ∧ p.version = none) ∧
      (p.nonzero = true ↔ ∃ dv, loadDescription .malformed = .ok dv) :=
  C6_construction_never_fails_on_manifest_errors "/pkg" "module.json" false none
    .malformed .missing (by decide)

/-- Claim C7: `setVersion(v)` followed by `getVersion()` returns `v`, and
the manifest's version field then holds the canonical string `str(v)`. -/
theorem C7_setVersion_getVersion_roundtrip (p : Pack) (v : Version) :
    (p.setVersion v).getVersion = some v ∧
    odLookup (p.setVersion v).description "version" = some v.str :=
  ⟨rfl, by simp [Pack.setVersion, odLookup_odInsert_self]⟩

/-- Claim C8: for an artifact holding a version, `outdated()` returns the
externally set candidate exactly when the candidate is strictly greater
than the version, and returns `None` when the candidate is equal or lower
or was never set. -/
theorem C8_outdated_iff_candidate_strictly_newer (p : Pack) (v : Version)
    (hv : p.version = some v) (l : Version) :
    (p.outdated = some l ↔ (p.latest_suitable_version = some l ∧ Version.lt v l = true)) ∧
    (p.latest_suitable_version = none → p.outdated = none) := by
  refine ⟨?_, ?_⟩
  · cases hl : p.latest_suitable_version with
    | none => simp [Pack.outdated, hl]
    | some l0 =>
      simp only [Pack.outdated, hl, versionGtOpt, hv]
      by_cases hlt : Version.lt v l0 = true
      · simp only [hlt, if_true]
        constructor
        · intro h
          obtain rfl : l0 = l := by simpa using h
          exact ⟨rfl, hlt⟩
        · rintro ⟨h, _⟩
          simpa using h
      · rw [if_neg (by simp [hlt])]
        constructor
        · intro h
          cases h
        · rintro ⟨he, hlt2⟩
          obtain rfl : l0 = l := by simpa using he
          exact absurd hlt2 hlt
  · intro h
    simp [Pack.outdated, h]

/-- Claim C8 witness: a pack at version 1.0.0 with candidate 2.0.0. -/
theorem C8_outdated_iff_candidate_strictly_newer_witness :
    samplePack.version = some ⟨1, 0, 0⟩ ∧
    ((samplePack.outdated = some ⟨2, 0, 0⟩ ↔
        (samplePack.latest_suitable_version = some ⟨2, 0, 0⟩ ∧
          Version.lt ⟨1, 0, 0⟩ ⟨2, 0, 0⟩ = true)) ∧
      (samplePack.latest_suitable_version = none → samplePack.outdated = none)) :=
  ⟨rfl, C8_outdated_iff_candidate_strictly_newer samplePack ⟨1, 0, 0⟩ rfl ⟨2, 0, 0⟩⟩

/-- Claim C9: a missing override file leaves exactly the built-in rule
group; any other read failure propagates out of construction; an existing
file contributes, after the always-present built-in group, exactly its
lines with trailing newline characters stripped and hash-led lines
skipped, kept verbatim otherwise. -/
theorem C9_ignore_override_parsing_and_additivity (path fn : String) (lk : Bool)
    (lat : Option Version) (m : ManifestRead) :
    (packInit path fn lk lat m .readFailure = .error .ignoreFileReadFailure) ∧
    (∃ p, packInit path fn lk lat m .missing = .ok p ∧
      p.ignore_patterns = [.regexObj Default_Publish_Ignore]) ∧
    (∀ lines, ∃ p, packInit path fn lk lat m (.ok lines) = .ok p ∧
      p.ignore_patterns = .regexObj Default_Publish_Ignore ::
        (parseIgnoreFile lines).map IgnorePattern.globStr) ∧
    (∀ lines, parseIgnoreFile lines =
      (lines.map rstripNewlines).filter (fun l => !startsWithHash l)) := by
  refine ⟨rfl, ?_, ?_, ?_⟩
  · refine ⟨_, rfl, ?_⟩
    cases hm : loadDescription m with
    | ok dv => obtain ⟨d, v⟩ := dv; simp [packInit, hm]
    | error e => simp [packInit, hm]
  · intro lines
    refine ⟨_, rfl, ?_⟩
    cases hm : loadDescription m with
    | ok dv => obtain ⟨d, v⟩ := dv; simp [packInit, hm]
    | error e => simp [packInit, hm]
  · intro lines
    induction lines with
    | nil => rfl
    | cons l ls ih =>
      by_cases h : startsWithHash (rstripNewlines l) = true
      · simp [parseIgnoreFile, h, ih]
      · simp only [Bool.not_eq_true] at h
        simp [parseIgnoreFile, h, ih]

/-- Claim C10: `exists()` resolves the bare manifest filename against the
current working directory, never consulting the artifact's own path — so
changing the path leaves its result untouched, it reports false for an
artifact whose manifest is present at `path/<manifest>` when the working
directory is elsewhere, and the same artifact and filesystem give
different results under different working directories. -/
theorem C10_exists_ignores_artifact_path :
    (∀ (p : Pack) (newPath : String) (files : List String) (cwd : String),
      Pack.existsQuery { p with path := newPath } files cwd = Pack.existsQuery p files cwd) ∧
    (Pack.existsQuery samplePack c10files "/work" = false ∧
      c10files.contains samplePack.getDescriptionFile = true) ∧
    Pack.existsQuery samplePack c10files "/pkg" = true :=
  ⟨fun _ _ _ _ => rfl, ⟨rfl, rfl⟩, rfl⟩

end YottaPack
